import Mathlib

/-!
Verification of the FairFinance governance core against its specification.

The governance subsystem (hash-chain primitives, ledger store, override
state machine, fairness metrics engine) is specified in the repository's
design document; the repository sources at hand contain its frontend
consumers (`GovernanceDashboard.jsx`, `usePermissions.js`,
`governanceService`) and the API reference, while the backend code itself
is absent. Backend operations are therefore modelled from the spec text
(each such definition says so in its doc comment); frontend behaviour is
translated directly from the JSX/JS sources.
-/

namespace FairFinance

/-! ## Canonical encoding primitives

The spec (§4.1, §6) demands a deterministic, collision-resistant digest
over a canonical encoding with fixed field order. Collision resistance is
idealised as injectivity: the digest is an injective encoding of the
entry's fields into `Nat`, built from `Nat.pair`. -/

/-- A digest value. -/
abbrev Hash := Nat

/-- Canonical injective encoding of a list of naturals. -/
def encodeList (l : List Nat) : Nat :=
  l.foldr (fun a n => Nat.pair a n + 1) 0

theorem encodeList_injective : Function.Injective encodeList := by
  intro l₁ l₂ h
  induction l₁ generalizing l₂ with
  | nil =>
    cases l₂ with
    | nil => rfl
    | cons b t => simp [encodeList] at h
  | cons a t ih =>
    cases l₂ with
    | nil => simp [encodeList] at h
    | cons b t₂ =>
      have h1 : Nat.pair a (encodeList t) + 1 = Nat.pair b (encodeList t₂) + 1 := h
      have h2 : Nat.pair a (encodeList t) = Nat.pair b (encodeList t₂) :=
        Nat.add_right_cancel h1
      rw [Nat.pair_eq_pair] at h2
      rw [h2.1, ih h2.2]

/-- Canonical encoding of a boolean field. -/
def encodeBool (b : Bool) : Nat := cond b 1 0

theorem encodeBool_injective : Function.Injective encodeBool := by
  intro a b h
  cases a <;> cases b <;> simp [encodeBool] at h ⊢

/-- Canonical encoding of a text field (reason strings and the like). -/
def encodeString (s : String) : Nat :=
  encodeList (s.data.map Char.toNat)

theorem char_toNat_injective : Function.Injective Char.toNat := by
  intro a b h
  have ha := Char.ofNat_toNat a
  rw [h, Char.ofNat_toNat b] at ha
  exact ha.symm

theorem encodeString_injective : Function.Injective encodeString := by
  intro s₁ s₂ h
  have hl := encodeList_injective h
  have hd := List.map_injective_iff.mpr char_toNat_injective hl
  cases s₁; cases s₂
  exact congrArg String.mk hd

/-! ## Data model (spec §3)

Modelled from the spec: the `LedgerEntry` record and its three payload
variants, absent from the available sources (only frontend consumers are
present). Identifiers are naturals, dispositions booleans
(`true` = approved, `false` = denied, matching the frontend's boolean
`new_decision`), probabilities fixed-precision decimals (basis points,
per §6's "probabilities serialized as fixed-precision decimals"). -/

/-- Tagged variant of a ledger entry (spec §3). -/
inductive EntryType
  | Decision
  | Override
  | ConsentChange
deriving DecidableEq

/-- Canonical numeric tag of an entry type, for the digest. -/
def EntryType.code : EntryType → Nat
  | .Decision => 0
  | .Override => 1
  | .ConsentChange => 2

theorem entryType_code_injective : Function.Injective EntryType.code := by
  intro a b h
  cases a <;> cases b <;> simp [EntryType.code] at h ⊢

/-- Modelled from the spec: payload of a `Decision` entry (§3) —
application identifier, subject identifier, predicted outcome, outcome
probability (basis points), protected-attribute value (one categorical
dimension, coded), reference to the opaque explainability payload. -/
structure DecisionRecord where
  applicationId : Nat
  subjectId : Nat
  outcome : Bool
  probabilityBp : Nat
  protectedAttr : Nat
  explanationRef : Nat
deriving DecidableEq

/-- Modelled from the spec: payload of an `Override` entry (§3) —
application identifier, prior disposition, new disposition, reason text,
actor identity. -/
structure OverrideRecord where
  applicationId : Nat
  priorDisposition : Bool
  newDisposition : Bool
  reason : String
  actorId : Nat
deriving DecidableEq

/-- Modelled from the spec: payload of a `ConsentChange` entry (§3) —
subject identifier, data category, new consent value, actor identity. -/
structure ConsentChangeRecord where
  subjectId : Nat
  dataCategory : Nat
  newValue : Bool
  actorId : Nat
deriving DecidableEq

/-- The type-specific body of a ledger entry (spec §3). -/
inductive Payload
  | decision (r : DecisionRecord)
  | override (r : OverrideRecord)
  | consent (r : ConsentChangeRecord)
deriving DecidableEq

/-- Canonical encoding of a decision payload (§6: deterministic field
order). -/
def DecisionRecord.encode (r : DecisionRecord) : Nat :=
  encodeList [r.applicationId, r.subjectId, encodeBool r.outcome,
    r.probabilityBp, r.protectedAttr, r.explanationRef]

/-- Canonical encoding of an override payload. -/
def OverrideRecord.encode (r : OverrideRecord) : Nat :=
  encodeList [r.applicationId, encodeBool r.priorDisposition,
    encodeBool r.newDisposition, encodeString r.reason, r.actorId]

/-- Canonical encoding of a consent-change payload. -/
def ConsentChangeRecord.encode (r : ConsentChangeRecord) : Nat :=
  encodeList [r.subjectId, r.dataCategory, encodeBool r.newValue, r.actorId]

/-- Canonical encoding of a payload: variant tag paired with the
variant's body encoding. -/
def Payload.encode : Payload → Nat
  | .decision r => Nat.pair 0 r.encode
  | .override r => Nat.pair 1 r.encode
  | .consent r => Nat.pair 2 r.encode

theorem decisionRecord_encode_injective : Function.Injective DecisionRecord.encode := by
  intro a b h
  have hl := encodeList_injective h
  simp only [List.cons.injEq, and_true] at hl
  obtain ⟨h1, h2, h3, h4, h5, h6⟩ := hl
  have h3b := encodeBool_injective h3
  cases a; cases b
  simp_all

theorem overrideRecord_encode_injective : Function.Injective OverrideRecord.encode := by
  intro a b h
  have hl := encodeList_injective h
  simp only [List.cons.injEq, and_true] at hl
  obtain ⟨h1, h2, h3, h4, h5⟩ := hl
  have h2b := encodeBool_injective h2
  have h3b := encodeBool_injective h3
  have h4b := encodeString_injective h4
  cases a; cases b
  simp_all

theorem consentChangeRecord_encode_injective : Function.Injective ConsentChangeRecord.encode := by
  intro a b h
  have hl := encodeList_injective h
  simp only [List.cons.injEq, and_true] at hl
  obtain ⟨h1, h2, h3, h4⟩ := hl
  have h3b := encodeBool_injective h3
  cases a; cases b
  simp_all

theorem payload_encode_injective : Function.Injective Payload.encode := by
  intro a b h
  cases a <;> cases b <;> simp only [Payload.encode] at h <;>
    rw [Nat.pair_eq_pair] at h
  · rw [decisionRecord_encode_injective h.2]
  · exact absurd h.1 (by decide)
  · exact absurd h.1 (by decide)
  · exact absurd h.1 (by decide)
  · rw [overrideRecord_encode_injective h.2]
  · exact absurd h.1 (by decide)
  · exact absurd h.1 (by decide)
  · exact absurd h.1 (by decide)
  · rw [consentChangeRecord_encode_injective h.2]

/-! ## Ledger entries and the hash-chain primitive (spec §3, §4.1, §4.2) -/

/-- Modelled from the spec: the atomic, immutable unit of the ledger
(§3), with the six canonical fields plus the stored digest. -/
structure LedgerEntry where
  sequence_number : Nat
  timestamp : Nat
  entry_type : EntryType
  payload : Payload
  author_id : Nat
  prev_hash : Hash
  entry_hash : Hash
deriving DecidableEq

/-- Modelled from the spec (§3, §4.1): the digest computed over
`(sequence_number, timestamp, entry_type, payload, author_id, prev_hash)`
in that fixed field order, through the canonical encoding. -/
def entryDigest (seq ts : Nat) (ty : EntryType) (p : Payload)
    (author : Nat) (prev : Hash) : Hash :=
  encodeList [seq, ts, ty.code, p.encode, author, prev]

/-- Modelled from the spec (§4.1): `link(prev_hash, entry_fields)` — the
hash-chain primitive, a pure function of the fields and the predecessor
digest. -/
def link (prev : Hash) (e : LedgerEntry) : Hash :=
  entryDigest e.sequence_number e.timestamp e.entry_type e.payload
    e.author_id prev

/-- The digest an entry's own stored fields recompute to (invariant I2). -/
def LedgerEntry.recomputedHash (e : LedgerEntry) : Hash :=
  link e.prev_hash e

/-- Altering the payload of an entry, keeping every other stored field,
changes its recomputed digest (idealised collision resistance). -/
theorem recomputedHash_ne_of_payload_ne (e : LedgerEntry) (p : Payload)
    (hp : p ≠ e.payload) :
    LedgerEntry.recomputedHash { e with payload := p } ≠ e.recomputedHash := by
  intro h
  apply hp
  simp only [LedgerEntry.recomputedHash, link, entryDigest] at h
  have hl := encodeList_injective h
  simp only [List.cons.injEq, and_true, true_and] at hl
  exact payload_encode_injective hl

/-! ## Ledger store (spec §4.2, §5) -/

/-- Modelled from the spec: the ordered, append-only sequence of entries
owned by the ledger store (§4.2). -/
structure Ledger where
  entries : List LedgerEntry
deriving DecidableEq

/-- The tail's `entry_hash` — the zero sentinel for an empty ledger
(§3: "zero/sentinel value for the first entry"). -/
def Ledger.tailHash (L : Ledger) : Hash :=
  L.entries.foldl (fun _ e => e.entry_hash) 0

/-- The tail observation a CAS append compares against: current length
(the next sequence number) and current tail hash (§5: "atomic
compare-and-swap on current tail hash + sequence number"). -/
def Ledger.tailInfo (L : Ledger) : Nat × Hash :=
  (L.entries.length, L.tailHash)

/-- The caller-supplied fields of one append (§4.2): everything but the
store-assigned sequence number and chain linkage. -/
structure AppendRequest where
  timestamp : Nat
  entry_type : EntryType
  payload : Payload
  author_id : Nat
deriving DecidableEq

/-- Errors of the append path (spec §7 taxonomy). -/
inductive AppendError
  | ConcurrentAppendConflict
deriving DecidableEq

/-- Modelled from the spec (§4.2): the serialized core of `append` —
assigns the next dense sequence number, reads the current tail's
`entry_hash` as `prev_hash`, computes `entry_hash` via the hash-chain
primitive, and persists the new entry as the new tail. -/
def Ledger.append (L : Ledger) (r : AppendRequest) : Ledger × LedgerEntry :=
  let seq := L.entries.length
  let prev := L.tailHash
  let e : LedgerEntry :=
    { sequence_number := seq, timestamp := r.timestamp,
      entry_type := r.entry_type, payload := r.payload,
      author_id := r.author_id, prev_hash := prev,
      entry_hash := entryDigest seq r.timestamp r.entry_type r.payload
        r.author_id prev }
  (⟨L.entries ++ [e]⟩, e)

/-- Modelled from the spec (§4.2, §5): the compare-and-swap append a
concurrent caller performs — it first observed `expected` as the tail;
the append commits only if the tail is still `expected`, otherwise the
caller loses the race and receives `ConcurrentAppendConflict`. -/
def Ledger.appendWith (L : Ledger) (expected : Nat × Hash)
    (r : AppendRequest) : Except AppendError (Ledger × LedgerEntry) :=
  if expected = L.tailInfo then .ok (L.append r)
  else .error .ConcurrentAppendConflict

/-- A ledger built solely by successful appends, from empty. -/
def buildLedger (reqs : List AppendRequest) : Ledger :=
  reqs.foldl (fun L r => (L.append r).1) ⟨[]⟩

/-! ## Chain verification (spec §4.2: `verify_chain`) -/

/-- Result of `verify_chain` (§4.2). -/
inductive VerificationResult
  | Valid
  | Broken (at_sequence_number : Nat)
deriving DecidableEq

/-- One entry's checks against the accumulated predecessor digest:
invariant I1 (`prev_hash` matches the predecessor's hash) and invariant
I2 (the stored `entry_hash` matches the recomputed digest). -/
def checkEntry (prev : Hash) (e : LedgerEntry) : Bool :=
  decide (e.prev_hash = prev ∧ e.entry_hash = e.recomputedHash)

/-- The verification walk: recompute every digest in order, reporting the
first position whose checks fail. -/
def verifyFrom (prev : Hash) : List LedgerEntry → VerificationResult
  | [] => .Valid
  | e :: rest =>
    if checkEntry prev e then verifyFrom e.entry_hash rest
    else .Broken e.sequence_number

/-- Modelled from the spec (§4.2): `verify_chain()` walks the whole
ledger recomputing each `entry_hash` from stored fields and checking
I1/I2, returning `Valid` or `Broken(at_sequence_number)` at the first
disagreement. -/
def Ledger.verify_chain (L : Ledger) : VerificationResult :=
  verifyFrom 0 L.entries

/-! ## Chain-validity lemmas -/

/-- The tail digest after walking a list from an initial digest. -/
def runTail (prev : Hash) (l : List LedgerEntry) : Hash :=
  l.foldl (fun _ e => e.entry_hash) prev

theorem runTail_concat (prev : Hash) (l : List LedgerEntry) (e : LedgerEntry) :
    runTail prev (l ++ [e]) = e.entry_hash := by
  simp [runTail, List.foldl_append]

theorem verifyFrom_cons_valid {prev : Hash} {e : LedgerEntry}
    {rest : List LedgerEntry}
    (h : verifyFrom prev (e :: rest) = .Valid) :
    (e.prev_hash = prev ∧ e.entry_hash = e.recomputedHash) ∧
      verifyFrom e.entry_hash rest = .Valid := by
  by_cases hc : checkEntry prev e
  · exact ⟨of_decide_eq_true hc, by simpa [verifyFrom, hc] using h⟩
  · simp [verifyFrom, hc] at h

theorem verifyFrom_concat_valid (l : List LedgerEntry) (prev : Hash)
    (e : LedgerEntry)
    (hv : verifyFrom prev l = .Valid)
    (hp : e.prev_hash = runTail prev l)
    (hh : e.entry_hash = e.recomputedHash) :
    verifyFrom prev (l ++ [e]) = .Valid := by
  induction l generalizing prev with
  | nil =>
    have hc : checkEntry prev e = true := decide_eq_true ⟨hp, hh⟩
    simp [verifyFrom, hc]
  | cons a t ih =>
    obtain ⟨hca, hrest⟩ := verifyFrom_cons_valid hv
    have hc : checkEntry prev a = true := decide_eq_true hca
    simpa [verifyFrom, hc] using ih a.entry_hash hrest hp

/-- One successful append preserves chain validity. -/
theorem append_preserves_valid (L : Ledger) (r : AppendRequest)
    (hv : L.verify_chain = .Valid) :
    (L.append r).1.verify_chain = .Valid := by
  apply verifyFrom_concat_valid L.entries 0 _ hv
  · rfl
  · rfl

/-- Every ledger built solely by successful appends verifies `Valid`
(generalized over the starting ledger for the fold induction). -/
theorem buildFrom_valid (reqs : List AppendRequest) (L : Ledger)
    (hv : L.verify_chain = .Valid) :
    (reqs.foldl (fun M r => (M.append r).1) L).verify_chain = .Valid := by
  induction reqs generalizing L with
  | nil => exact hv
  | cons r t ih => exact ih _ (append_preserves_valid L r hv)

theorem buildLedger_valid (reqs : List AppendRequest) :
    (buildLedger reqs).verify_chain = .Valid :=
  buildFrom_valid reqs ⟨[]⟩ rfl

/-- Invariant I2 extracted from a valid walk: every entry's stored hash
equals the digest recomputed from its own fields. -/
theorem valid_entry_hash (l : List LedgerEntry) (prev : Hash)
    (hv : verifyFrom prev l = .Valid) :
    ∀ i (h : i < l.length),
      (l.get ⟨i, h⟩).entry_hash = (l.get ⟨i, h⟩).recomputedHash := by
  induction l generalizing prev with
  | nil => intro i h; simp at h
  | cons e rest ih =>
    obtain ⟨⟨_, hI2⟩, hrest⟩ := verifyFrom_cons_valid hv
    intro i h
    cases i with
    | zero => simpa using hI2
    | succ j => simpa using ih e.entry_hash hrest j (by simpa using h)

/-- Invariant I1 extracted from a valid walk: every entry past the first
links to its predecessor's stored hash. -/
theorem valid_prev_hash (l : List LedgerEntry) (prev : Hash)
    (hv : verifyFrom prev l = .Valid) :
    ∀ i (h : i + 1 < l.length),
      (l.get ⟨i + 1, h⟩).prev_hash =
        (l.get ⟨i, Nat.lt_of_succ_lt h⟩).entry_hash := by
  induction l generalizing prev with
  | nil => intro i h; simp at h
  | cons e rest ih =>
    obtain ⟨_, hrest⟩ := verifyFrom_cons_valid hv
    intro i h
    cases i with
    | zero =>
      cases rest with
      | nil => simp at h
      | cons f rest2 =>
        obtain ⟨⟨hI1, _⟩, _⟩ := verifyFrom_cons_valid hrest
        simpa using hI1
    | succ j => simpa using ih e.entry_hash hrest j (by simpa using h)

/-- C1 — Every ledger built solely by successful append operations
satisfies the hash-chain invariants: for every position `i > 0` the
entry's `prev_hash` equals the predecessor's `entry_hash` (I1), every
entry's `entry_hash` equals the digest recomputed from its own six
fields (I2), and `verify_chain()` on the freshly appended ledger returns
`Valid`. -/
theorem freshly_appended_ledger_chain_invariants (reqs : List AppendRequest) :
    (∀ i (h : i + 1 < (buildLedger reqs).entries.length),
      ((buildLedger reqs).entries.get ⟨i + 1, h⟩).prev_hash =
        ((buildLedger reqs).entries.get ⟨i, Nat.lt_of_succ_lt h⟩).entry_hash) ∧
    (∀ i (h : i < (buildLedger reqs).entries.length),
      ((buildLedger reqs).entries.get ⟨i, h⟩).entry_hash =
        entryDigest ((buildLedger reqs).entries.get ⟨i, h⟩).sequence_number
          ((buildLedger reqs).entries.get ⟨i, h⟩).timestamp
          ((buildLedger reqs).entries.get ⟨i, h⟩).entry_type
          ((buildLedger reqs).entries.get ⟨i, h⟩).payload
          ((buildLedger reqs).entries.get ⟨i, h⟩).author_id
          ((buildLedger reqs).entries.get ⟨i, h⟩).prev_hash) ∧
    (buildLedger reqs).verify_chain = .Valid := by
  refine ⟨?_, ?_, buildLedger_valid reqs⟩
  · exact valid_prev_hash _ 0 (buildLedger_valid reqs)
  · exact valid_entry_hash _ 0 (buildLedger_valid reqs)

/-- C1 witness: the invariants evaluated on a concrete two-append
ledger. -/
theorem freshly_appended_ledger_chain_invariants_witness :
    (buildLedger
      [⟨5, .Decision, .decision ⟨1, 7, true, 8500, 0, 3⟩, 0⟩,
       ⟨6, .ConsentChange, .consent ⟨7, 2, false, 7⟩, 7⟩]).verify_chain =
      .Valid :=
  (freshly_appended_ledger_chain_invariants
    [⟨5, .Decision, .decision ⟨1, 7, true, 8500, 0, 3⟩, 0⟩,
     ⟨6, .ConsentChange, .consent ⟨7, 2, false, 7⟩, 7⟩]).2.2

/-! ## Sequence-number density of built ledgers -/

/-- Sequence numbers coincide with list positions: dense from zero. -/
def seqDense (L : Ledger) : Prop :=
  L.entries.map (fun e => e.sequence_number) = List.range L.entries.length

theorem append_seqDense (L : Ledger) (r : AppendRequest) (h : seqDense L) :
    seqDense (L.append r).1 := by
  simp only [seqDense, Ledger.append, List.map_append, List.length_append]
  rw [h]
  simp [List.range_succ]

theorem buildFrom_seqDense (reqs : List AppendRequest) (L : Ledger)
    (h : seqDense L) :
    seqDense (reqs.foldl (fun M r => (M.append r).1) L) := by
  induction reqs generalizing L with
  | nil => exact h
  | cons r t ih => exact ih _ (append_seqDense L r h)

theorem buildLedger_seqDense (reqs : List AppendRequest) :
    seqDense (buildLedger reqs) :=
  buildFrom_seqDense reqs ⟨[]⟩ rfl

theorem seq_eq_position_of_seqDense (L : Ledger) (h : seqDense L)
    (k : Nat) (hk : k < L.entries.length) :
    (L.entries.get ⟨k, hk⟩).sequence_number = k := by
  have h2 : some (L.entries.get ⟨k, hk⟩).sequence_number = some k := by
    calc some (L.entries.get ⟨k, hk⟩).sequence_number
        = (L.entries.map (fun e => e.sequence_number))[k]? := by
          simp [List.getElem?_eq_getElem hk]
      _ = (List.range L.entries.length)[k]? := by rw [h]
      _ = some k := by simp [hk]
  exact Option.some.inj h2

/-! ## Tampering detection (C2) -/

/-- Replace the stored payload of the entry at position `k`, leaving
every other stored field — in particular the stored `entry_hash` —
untouched (the post-append tampering of spec §8). -/
def setPayload : List LedgerEntry → Nat → Payload → List LedgerEntry
  | [], _, _ => []
  | e :: rest, 0, p => { e with payload := p } :: rest
  | e :: rest, k + 1, p => e :: setPayload rest k p

/-- Tampering with one entry's payload in a stored ledger. -/
def tamperPayload (L : Ledger) (k : Nat) (p : Payload) : Ledger :=
  ⟨setPayload L.entries k p⟩

theorem verifyFrom_setPayload (l : List LedgerEntry) (prev : Hash)
    (k : Nat) (p : Payload) (hk : k < l.length)
    (hv : verifyFrom prev l = .Valid)
    (hp : p ≠ (l.get ⟨k, hk⟩).payload) :
    verifyFrom prev (setPayload l k p) = .Broken (l.get ⟨k, hk⟩).sequence_number := by
  induction l generalizing prev k with
  | nil => simp at hk
  | cons e rest ih =>
    obtain ⟨⟨hI1, hI2⟩, hrest⟩ := verifyFrom_cons_valid hv
    cases k with
    | zero =>
      have hne : LedgerEntry.recomputedHash { e with payload := p } ≠
          e.recomputedHash :=
        recomputedHash_ne_of_payload_ne e p (by simpa using hp)
      have hc : checkEntry prev { e with payload := p } = false := by
        apply decide_eq_false
        intro hcc
        exact hne (hcc.2.symm.trans hI2)
      simp [setPayload, verifyFrom, hc]
    | succ j =>
      have hc : checkEntry prev e = true := decide_eq_true ⟨hI1, hI2⟩
      have hj : j < rest.length := by simpa using hk
      have := ih e.entry_hash j hj hrest (by simpa using hp)
      simpa [setPayload, verifyFrom, hc] using this

/-- C2 — For every ledger valid at append time (built by successful
appends) and every single entry whose stored payload is then altered,
`verify_chain()` returns `Broken` at exactly that entry's sequence
number (its position), never an earlier and never a later one. -/
theorem tampered_payload_broken_at_position (reqs : List AppendRequest)
    (k : Nat) (p : Payload)
    (hk : k < (buildLedger reqs).entries.length)
    (hp : p ≠ ((buildLedger reqs).entries.get ⟨k, hk⟩).payload) :
    (tamperPayload (buildLedger reqs) k p).verify_chain = .Broken k := by
  have hbr := verifyFrom_setPayload (buildLedger reqs).entries 0 k p hk
    (buildLedger_valid reqs) hp
  have hseq := seq_eq_position_of_seqDense (buildLedger reqs)
    (buildLedger_seqDense reqs) k hk
  rw [hseq] at hbr
  exact hbr

/-- C2 witness: a concrete two-entry ledger with the first payload
altered is reported broken at position 0. -/
theorem tampered_payload_broken_at_position_witness :
    (0 < (buildLedger
        [⟨5, .Decision, .decision ⟨1, 7, true, 8500, 0, 3⟩, 0⟩,
         ⟨6, .ConsentChange, .consent ⟨7, 2, false, 7⟩, 7⟩]).entries.length) ∧
    (tamperPayload (buildLedger
        [⟨5, .Decision, .decision ⟨1, 7, true, 8500, 0, 3⟩, 0⟩,
         ⟨6, .ConsentChange, .consent ⟨7, 2, false, 7⟩, 7⟩]) 0
      (.decision ⟨1, 7, false, 8500, 0, 3⟩)).verify_chain = .Broken 0 :=
  ⟨by decide,
   tampered_payload_broken_at_position
    [⟨5, .Decision, .decision ⟨1, 7, true, 8500, 0, 3⟩, 0⟩,
     ⟨6, .ConsentChange, .consent ⟨7, 2, false, 7⟩, 7⟩]
    0 (.decision ⟨1, 7, false, 8500, 0, 3⟩) (by decide) (by decide)⟩

/-! ## Concurrent appends (C3)

The spec (§5) serializes appends through a compare-and-swap on the
observed tail, so a race of two appends against the same tail is the
sequential interleaving modelled by `Ledger.appendWith`: both callers
observe the same tail, their commits apply in some order, and the CAS
decides winner and loser. -/

theorem append_length (L : Ledger) (r : AppendRequest) :
    (L.append r).1.entries.length = L.entries.length + 1 := by
  simp [Ledger.append]

theorem buildFrom_length (reqs : List AppendRequest) (L : Ledger) :
    (reqs.foldl (fun M r => (M.append r).1) L).entries.length =
      L.entries.length + reqs.length := by
  induction reqs generalizing L with
  | nil => simp
  | cons r t ih =>
    rw [List.foldl_cons, ih, append_length, List.length_cons]
    omega

theorem buildLedger_length (reqs : List AppendRequest) :
    (buildLedger reqs).entries.length = reqs.length := by
  simpa using buildFrom_length reqs ⟨[]⟩

theorem append_map_seq (L : Ledger) (r : AppendRequest) :
    (L.append r).1.entries.map (fun e => e.sequence_number) =
      L.entries.map (fun e => e.sequence_number) ++ [L.entries.length] := by
  simp [Ledger.append]

/-- C3 — Two appends racing against the same observed tail: the first
commit succeeds at once with the next sequence number; the loser's
compare-and-swap fails with `ConcurrentAppendConflict`; retrying with the
re-read tail succeeds with the following sequence number; the final
sequence numbers are contiguous from zero with no duplicates or gaps. -/
theorem concurrent_append_race (reqs : List AppendRequest)
    (r1 r2 : AppendRequest) :
    ∃ L1 e1 L2 e2,
      (buildLedger reqs).appendWith (buildLedger reqs).tailInfo r1 =
        .ok (L1, e1) ∧
      e1.sequence_number = reqs.length ∧
      L1.appendWith (buildLedger reqs).tailInfo r2 =
        .error .ConcurrentAppendConflict ∧
      L1.appendWith L1.tailInfo r2 = .ok (L2, e2) ∧
      e2.sequence_number = reqs.length + 1 ∧
      L2.entries.map (fun e => e.sequence_number) =
        List.range (reqs.length + 2) := by
  have hn := buildLedger_length reqs
  refine ⟨((buildLedger reqs).append r1).1, ((buildLedger reqs).append r1).2,
    (((buildLedger reqs).append r1).1.append r2).1,
    (((buildLedger reqs).append r1).1.append r2).2, ?_, ?_, ?_, ?_, ?_, ?_⟩
  · simp [Ledger.appendWith]
  · simpa [Ledger.append] using hn
  · have hne : (buildLedger reqs).tailInfo ≠
        ((buildLedger reqs).append r1).1.tailInfo := by
      intro h
      have h1 := congrArg Prod.fst h
      simp only [Ledger.tailInfo, append_length] at h1
      omega
    simp [Ledger.appendWith, hne]
  · simp [Ledger.appendWith]
  · show ((buildLedger reqs).append r1).1.entries.length = reqs.length + 1
    rw [append_length, hn]
  · rw [append_map_seq, append_map_seq, buildLedger_seqDense reqs,
      append_length, hn, List.range_succ, List.range_succ]

/-! ## Override state machine (spec §4.4) -/

/-- Errors of the override path (spec §4.4, §7). -/
inductive OverrideError
  | ReasonRequired
  | UnauthorizedOverride
  | UnknownApplication
deriving DecidableEq

/-- Modelled from the spec (§4.4): the current disposition of an
application, resolved by scanning the ledger for the latest
`Decision`/`Override` entry with that application identifier. Entries of
a built ledger are stored in ascending sequence order, so the last match
in the list is the entry with the highest sequence number —
last-writer-wins. -/
def latestDisposition (L : Ledger) (appId : Nat) : Option Bool :=
  L.entries.foldl (fun acc e =>
    match e.payload with
    | .decision r => if r.applicationId = appId then some r.outcome else acc
    | .override r => if r.applicationId = appId then some r.newDisposition else acc
    | .consent _ => acc) none

/-- Modelled from the spec (§4.4): `request_override` — looks up the
current disposition last-writer-wins, rejects with `ReasonRequired` on an
empty reason, rejects with `UnauthorizedOverride` when the injected
capability gate says no, and on success appends an `Override` entry whose
prior disposition is the resolved current disposition. -/
def request_override (L : Ledger) (ts : Nat) (appId : Nat)
    (newDisposition : Bool) (reason : String) (actor : Nat)
    (hasCapability : Bool) :
    Except OverrideError (Ledger × LedgerEntry) :=
  if reason = "" then .error .ReasonRequired
  else if !hasCapability then .error .UnauthorizedOverride
  else
    match latestDisposition L appId with
    | none => .error .UnknownApplication
    | some prior =>
      .ok (L.append ⟨ts, .Override,
        .override ⟨appId, prior, newDisposition, reason, actor⟩, actor⟩)

theorem latestDisposition_append (L : Ledger) (r : AppendRequest)
    (appId : Nat) :
    latestDisposition (L.append r).1 appId =
      match r.payload with
      | .decision d => if d.applicationId = appId then some d.outcome
          else latestDisposition L appId
      | .override o => if o.applicationId = appId then some o.newDisposition
          else latestDisposition L appId
      | .consent _ => latestDisposition L appId := by
  simp only [latestDisposition, Ledger.append, List.foldl_append, List.foldl]

/-- C4 — For every application and every successful override, the
appended `Override` entry's prior disposition equals the application's
most recent known disposition (last-writer-wins over the chain), the new
ledger is exactly the old entries followed by the new entry — so no
previously appended entry, in particular the original `Decision` entry,
is modified in any field — and the appended entry becomes the new
last-writer, so a subsequent override's prior is this override's new
disposition. -/
theorem override_prior_is_latest_disposition (L : Ledger) (ts appId : Nat)
    (newDisposition : Bool) (reason : String) (actor : Nat) (prior : Bool)
    (hreason : reason ≠ "")
    (hlatest : latestDisposition L appId = some prior) :
    ∃ e, request_override L ts appId newDisposition reason actor true =
        .ok (⟨L.entries ++ [e]⟩, e) ∧
      e.payload = .override ⟨appId, prior, newDisposition, reason, actor⟩ ∧
      e.entry_type = .Override ∧
      latestDisposition ⟨L.entries ++ [e]⟩ appId = some newDisposition := by
  refine ⟨(L.append ⟨ts, .Override,
      .override ⟨appId, prior, newDisposition, reason, actor⟩, actor⟩).2,
    ?_, rfl, rfl, ?_⟩
  · simp [request_override, hreason, hlatest, Ledger.append]
  · have := latestDisposition_append L
      ⟨ts, .Override, .override ⟨appId, prior, newDisposition, reason, actor⟩,
        actor⟩ appId
    simpa [Ledger.append] using this

/-- Demonstration ledger for the override scenario of spec §8: one
original `Decision` for application 1 with disposition denied. -/
def demoDecisionLedger : Ledger :=
  buildLedger [⟨5, .Decision, .decision ⟨1, 7, false, 3000, 0, 3⟩, 0⟩]

/-- C4 witness: overriding the denied application 1 to approved with
reason "manual review" records prior disposition denied, and the
resulting ledger resolves to approved — so a second override would record
prior approved. -/
theorem override_prior_is_latest_disposition_witness :
    (("manual review" ≠ "") ∧
      latestDisposition demoDecisionLedger 1 = some false) ∧
    (∃ e, request_override demoDecisionLedger 20 1 true "manual review" 9
        true = .ok (⟨demoDecisionLedger.entries ++ [e]⟩, e) ∧
      e.payload = .override ⟨1, false, true, "manual review", 9⟩ ∧
      e.entry_type = .Override ∧
      latestDisposition ⟨demoDecisionLedger.entries ++ [e]⟩ 1 = some true) :=
  ⟨⟨by decide, by decide⟩,
    override_prior_is_latest_disposition demoDecisionLedger 20 1 true
      "manual review" 9 false (by decide) (by decide)⟩

/-! ## Fairness metrics engine (spec §4.5) -/

/-- One protected-attribute group of a snapshot: favorable decisions and
total decisions. -/
structure GroupStat where
  group : Nat
  favorable : Nat
  total : Nat
deriving DecidableEq

/-- Modelled from the spec (§4.5): the favorable-outcome rates
`r_g = favorable / total`, computed only over groups with non-zero
population — a group with zero decisions is excluded before any
division. -/
def groupRates (gs : List GroupStat) : List ℚ :=
  (gs.filter (fun g => g.total != 0)).map
    (fun g => (g.favorable : ℚ) / (g.total : ℚ))

/-- A fairness-metric value: a number, or one of the first-class
non-numeric statuses of spec §7. -/
inductive MetricValue
  | val (q : ℚ)
  | Undefined
  | NotComputable
deriving DecidableEq

/-- Modelled from the spec (§4.5): Demographic Parity Difference —
`max(r_g) - min(r_g)` over all groups with non-zero population. -/
def demographicParityDifference (gs : List GroupStat) : MetricValue :=
  match groupRates gs with
  | [] => .NotComputable
  | r :: rs => .val (rs.foldl max r - rs.foldl min r)

/-- Modelled from the spec (§4.5): Disparate Impact Ratio —
`min(r_g) / max(r_g)`, reported as `Undefined` when the
denominator-defining max is zero, never a crash. -/
def disparateImpact (gs : List GroupStat) : MetricValue :=
  match groupRates gs with
  | [] => .NotComputable
  | r :: rs =>
    if rs.foldl max r = 0 then .Undefined
    else .val (rs.foldl min r / rs.foldl max r)

/-- Pass/violate/undefined status of a metric result (spec §4.5). -/
inductive MetricStatus
  | pass
  | violate
  | undefined
deriving DecidableEq

/-- A metric row of the engine's report (spec §4.5 output). -/
structure MetricReport where
  metric_name : String
  value : MetricValue
  threshold : ℚ
  status : MetricStatus
deriving DecidableEq

/-- Status of the parity difference: violates when the absolute value
exceeds the configured bound (spec §4.5). -/
def dpdStatus (v : MetricValue) (threshold : ℚ) : MetricStatus :=
  match v with
  | .val q => if |q| > threshold then .violate else .pass
  | _ => .undefined

/-- Status of the impact ratio: violates when below the configured bound
(spec §4.5); a non-numeric result is `undefined`, never coerced to a
number. -/
def dirStatus (v : MetricValue) (threshold : ℚ) : MetricStatus :=
  match v with
  | .val q => if q < threshold then .violate else .pass
  | _ => .undefined

/-- The parity-difference row of the report. -/
def dpdReport (gs : List GroupStat) (threshold : ℚ) : MetricReport :=
  ⟨"demographic_parity_difference", demographicParityDifference gs,
    threshold, dpdStatus (demographicParityDifference gs) threshold⟩

/-- The impact-ratio row of the report. -/
def dirReport (gs : List GroupStat) (threshold : ℚ) : MetricReport :=
  ⟨"disparate_impact", disparateImpact gs, threshold,
    dirStatus (disparateImpact gs) threshold⟩

/-- Modelled from the spec (§4.5, §7): the rows flagged to operators as
requiring attention — everything whose status is not `pass`, which
includes `undefined` results. -/
def violationsOf (ms : List MetricReport) : List MetricReport :=
  ms.filter (fun m => m.status != .pass)

theorem foldl_max_all_eq (l : List ℚ) (c : ℚ) (h : ∀ x ∈ l, x = c) :
    l.foldl max c = c := by
  induction l with
  | nil => rfl
  | cons a t ih =>
    have ha : a = c := h a (by simp)
    simp only [List.foldl_cons, ha, max_self]
    exact ih fun x hx => h x (by simp [hx])

theorem foldl_min_all_eq (l : List ℚ) (c : ℚ) (h : ∀ x ∈ l, x = c) :
    l.foldl min c = c := by
  induction l with
  | nil => rfl
  | cons a t ih =>
    have ha : a = c := h a (by simp)
    simp only [List.foldl_cons, ha, min_self]
    exact ih fun x hx => h x (by simp [hx])

/-- C5 (amended) — For every snapshot whose groups with non-zero
population all have identical favorable-outcome rates, the Demographic
Parity Difference is exactly 0; the Disparate Impact Ratio is exactly 1
provided the common rate is non-zero (when it is zero, the engine's own
division-by-zero rule reports `Undefined` instead — see the
counterexample). -/
theorem identical_rates_zero_parity (gs : List GroupStat) (c : ℚ)
    (hne : groupRates gs ≠ [])
    (hall : ∀ r ∈ groupRates gs, r = c) :
    demographicParityDifference gs = .val 0 ∧
    (c ≠ 0 → disparateImpact gs = .val 1) := by
  cases h : groupRates gs with
  | nil => exact absurd h hne
  | cons r rs =>
    have hr : r = c := hall r (by rw [h]; exact List.mem_cons_self r rs)
    have hrs : ∀ x ∈ rs, x = c := fun x hx =>
      hall x (by rw [h]; exact List.mem_cons_of_mem r hx)
    have hmax : rs.foldl max r = c := by
      rw [hr]; exact foldl_max_all_eq rs c hrs
    have hmin : rs.foldl min r = c := by
      rw [hr]; exact foldl_min_all_eq rs c hrs
    constructor
    · simp [demographicParityDifference, h, hmax, hmin]
    · intro hc
      simp [disparateImpact, h, hmax, hmin, hc, div_self hc]

/-- C5 counterexample — a snapshot whose two groups both have non-zero
population and identical favorable-outcome rates (both 0): the parity
difference is 0 as claimed, but the Disparate Impact Ratio is
`Undefined`, not 1.0, because the denominator-defining max rate is
zero. -/
theorem identical_rates_dir_not_one_counterexample :
    (∀ g ∈ ([⟨0, 0, 1⟩, ⟨1, 0, 1⟩] : List GroupStat), g.total ≠ 0) ∧
    (∀ r ∈ groupRates [⟨0, 0, 1⟩, ⟨1, 0, 1⟩], r = 0) ∧
    demographicParityDifference [⟨0, 0, 1⟩, ⟨1, 0, 1⟩] = .val 0 ∧
    disparateImpact [⟨0, 0, 1⟩, ⟨1, 0, 1⟩] ≠ .val 1 := by
  refine ⟨by decide, ?_, ?_, ?_⟩
  · simp [groupRates, List.filter]
  · simp [demographicParityDifference, groupRates, List.filter]
  · simp [disparateImpact, groupRates, List.filter]

/-- C5 witness: two groups with common rate one half — parity difference
0, impact ratio 1. -/
theorem identical_rates_zero_parity_witness :
    (groupRates [⟨0, 1, 2⟩, ⟨1, 2, 4⟩] ≠ [] ∧
      (∀ r ∈ groupRates [⟨0, 1, 2⟩, ⟨1, 2, 4⟩], r = 1 / 2) ∧
      (1 / 2 : ℚ) ≠ 0) ∧
    demographicParityDifference [⟨0, 1, 2⟩, ⟨1, 2, 4⟩] = .val 0 ∧
    disparateImpact [⟨0, 1, 2⟩, ⟨1, 2, 4⟩] = .val 1 := by
  have h1 : groupRates [⟨0, 1, 2⟩, ⟨1, 2, 4⟩] ≠ [] := by
    simp [groupRates, List.filter]
  have h2 : ∀ r ∈ groupRates [(⟨0, 1, 2⟩ : GroupStat), ⟨1, 2, 4⟩],
      r = 1 / 2 := by
    simp [groupRates, List.filter]
    norm_num
  have h3 : (1 / 2 : ℚ) ≠ 0 := by norm_num
  exact ⟨⟨h1, h2, h3⟩,
    (identical_rates_zero_parity _ _ h1 h2).1,
    (identical_rates_zero_parity _ _ h1 h2).2 h3⟩

/-- C6 — The fairness engine never divides by zero: a group with zero
decisions is excluded from the rate computation (prepending one changes
no metric), and when the impact ratio's denominator — the maximal
favorable-outcome rate — is zero, the result is the first-class status
`Undefined`, whose report row is status `undefined`, appears among the
rows flagged for attention, and is never coerced to the number 0. -/
theorem fairness_division_by_zero_safety (gs : List GroupStat)
    (g : GroupStat) (thDpd thDir : ℚ) :
    (g.total = 0 →
      groupRates (g :: gs) = groupRates gs ∧
      demographicParityDifference (g :: gs) = demographicParityDifference gs ∧
      disparateImpact (g :: gs) = disparateImpact gs) ∧
    (groupRates gs ≠ [] → (∀ r ∈ groupRates gs, r = 0) →
      disparateImpact gs = .Undefined ∧
      (dirReport gs thDir).status = .undefined ∧
      dirReport gs thDir ∈ violationsOf [dpdReport gs thDpd, dirReport gs thDir] ∧
      disparateImpact gs ≠ .val 0) := by
  constructor
  · intro hg
    have hrates : groupRates (g :: gs) = groupRates gs := by
      simp [groupRates, List.filter, hg]
    exact ⟨hrates, by rw [demographicParityDifference, hrates, demographicParityDifference],
      by rw [disparateImpact, hrates, disparateImpact]⟩
  · intro hne hall
    have hundef : disparateImpact gs = .Undefined := by
      cases h : groupRates gs with
      | nil => exact absurd h hne
      | cons r rs =>
        have hr : r = 0 := hall r (by rw [h]; exact List.mem_cons_self r rs)
        have hrs : ∀ x ∈ rs, x = 0 := fun x hx =>
          hall x (by rw [h]; exact List.mem_cons_of_mem r hx)
        have hmax : rs.foldl max r = 0 := by
          rw [hr]; exact foldl_max_all_eq rs 0 hrs
        simp [disparateImpact, h, hmax]
    have hstatus : (dirReport gs thDir).status = .undefined := by
      simp [dirReport, hundef, dirStatus]
    refine ⟨hundef, hstatus, ?_, by rw [hundef]; intro hcontra; cases hcontra⟩
    simp only [violationsOf, List.mem_filter]
    refine ⟨by simp, ?_⟩
    rw [hstatus]
    decide

/-- C6 witness: prepending a zero-decision group leaves the metrics of a
two-group all-zero-favorable snapshot unchanged, and that snapshot's
impact ratio is Undefined, flagged, and not 0. -/
theorem fairness_division_by_zero_safety_witness :
    ((⟨2, 5, 0⟩ : GroupStat).total = 0 ∧
      groupRates [⟨0, 0, 1⟩, ⟨1, 0, 2⟩] ≠ [] ∧
      (∀ r ∈ groupRates [⟨0, 0, 1⟩, ⟨1, 0, 2⟩], r = 0)) ∧
    groupRates (⟨2, 5, 0⟩ :: [⟨0, 0, 1⟩, ⟨1, 0, 2⟩]) =
      groupRates [⟨0, 0, 1⟩, ⟨1, 0, 2⟩] ∧
    disparateImpact [⟨0, 0, 1⟩, ⟨1, 0, 2⟩] = .Undefined ∧
    (dirReport [⟨0, 0, 1⟩, ⟨1, 0, 2⟩] (4 / 5)).status = .undefined ∧
    disparateImpact [⟨0, 0, 1⟩, ⟨1, 0, 2⟩] ≠ .val 0 := by
  have hg : (⟨2, 5, 0⟩ : GroupStat).total = 0 := rfl
  have hne : groupRates [(⟨0, 0, 1⟩ : GroupStat), ⟨1, 0, 2⟩] ≠ [] := by
    simp [groupRates, List.filter]
  have hall : ∀ r ∈ groupRates [(⟨0, 0, 1⟩ : GroupStat), ⟨1, 0, 2⟩],
      r = 0 := by
    simp [groupRates, List.filter]
  refine ⟨⟨hg, hne, hall⟩,
    ((fairness_division_by_zero_safety [⟨0, 0, 1⟩, ⟨1, 0, 2⟩] ⟨2, 5, 0⟩
      (1 / 20) (4 / 5)).1 hg).1, ?_, ?_, ?_⟩
  · exact ((fairness_division_by_zero_safety [⟨0, 0, 1⟩, ⟨1, 0, 2⟩] ⟨2, 5, 0⟩
      (1 / 20) (4 / 5)).2 hne hall).1
  · exact ((fairness_division_by_zero_safety [⟨0, 0, 1⟩, ⟨1, 0, 2⟩] ⟨2, 5, 0⟩
      (1 / 20) (4 / 5)).2 hne hall).2.1
  · exact ((fairness_division_by_zero_safety [⟨0, 0, 1⟩, ⟨1, 0, 2⟩] ⟨2, 5, 0⟩
      (1 / 20) (4 / 5)).2 hne hall).2.2.2

/-! ## Frontend: role permissions (`usePermissions.js`) -/

/-- Translated from `src/frontend/src/hooks/usePermissions.js` lines
4-35: the `ROLE_PERMISSIONS` mapping, with the JS object lookup falling
back to the empty list for an unrecognized role (line 42:
`ROLE_PERMISSIONS[user.role] || []`). -/
def rolePermissions (role : String) : List String :=
  if role = "user" then
    ["apply_for_loan", "view_own_shap", "voice_assistant_full",
     "manage_consent", "view_profile_explanation", "view_own_logs"]
  else if role = "auditor" then
    ["view_all_explanations", "voice_assistant_limited", "view_all_logs",
     "export_logs_limited", "view_fairness_metrics",
     "override_decision_recommend", "view_governance_rules"]
  else if role = "admin" then
    ["view_all_explanations", "voice_assistant_full",
     "configure_consent_defaults", "view_all_logs", "export_logs_full",
     "view_fairness_metrics", "trigger_retraining",
     "override_decision_approve", "manage_roles", "view_governance_rules",
     "change_governance_rules"]
  else []

/-- The authenticated user the auth context supplies to the frontend. -/
structure AuthUser where
  id : Nat
  role : String
deriving DecidableEq

/-- Translated from `usePermissions.js` lines 40-44: `hasPermission`
returns false with no authenticated user, otherwise looks the permission
up in the role's list. -/
def hasPermission (user : Option AuthUser) (permission : String) : Bool :=
  match user with
  | none => false
  | some u => (rolePermissions u.role).contains permission

/-- Translated from `GovernanceDashboard.jsx` line 347: the Override
action is rendered only when the user holds
`override_decision_approve` or `override_decision_recommend`. -/
def overrideActionOffered (user : Option AuthUser) : Bool :=
  hasPermission user "override_decision_approve" ||
    hasPermission user "override_decision_recommend"

/-! ## Frontend: the override modal (`GovernanceDashboard.jsx`) -/

/-- One row of the decision-log list the governance service returns,
with the fields the dashboard reads. -/
structure DecisionLog where
  application_id : Nat
  user_id : Nat
  prediction : Bool
  probabilityBp : Nat
  timestamp : Nat
  admin_override : Bool
deriving DecidableEq

/-- The ECMAScript `WhiteSpace` and `LineTerminator` characters that
`String.prototype.trim` removes. -/
def isJsWhitespace (c : Char) : Bool :=
  c.toNat == 0x9 || c.toNat == 0xA || c.toNat == 0xB || c.toNat == 0xC ||
  c.toNat == 0xD || c.toNat == 0x20 || c.toNat == 0xA0 ||
  c.toNat == 0x1680 ||
  (decide (0x2000 ≤ c.toNat) && decide (c.toNat ≤ 0x200A)) ||
  c.toNat == 0x2028 || c.toNat == 0x2029 || c.toNat == 0x202F ||
  c.toNat == 0x205F || c.toNat == 0x3000 || c.toNat == 0xFEFF

/-- JavaScript `String.prototype.trim`: strip leading and trailing
whitespace. -/
def jsTrim (s : String) : String :=
  ⟨((s.data.dropWhile isJsWhitespace).reverse.dropWhile
      isJsWhitespace).reverse⟩

/-- What one run of the dashboard's override confirmation does: either
report an error and stop, or call the governance override API. -/
inductive OverrideUiAction
  | showError
  | callApi (application_id : Nat) (new_decision : Bool) (reason : String)
deriving DecidableEq

/-- Translated from `GovernanceDashboard.jsx` lines 80-100
(`handleOverride`): with no open modal or a reason whose trim is empty
(JS string falsiness), it reports "Please provide a reason for the
override" and returns; otherwise it calls
`governanceService.adminOverride(modal.application_id, overrideDecision,
overrideReason)`. -/
def handleOverride (overrideModal : Option DecisionLog)
    (overrideReason : String) (overrideDecision : Bool) : OverrideUiAction :=
  match overrideModal with
  | none => .showError
  | some m =>
    if jsTrim overrideReason = "" then .showError
    else .callApi m.application_id overrideDecision overrideReason

/-- Translated from `GovernanceDashboard.jsx` line 446: the Confirm
Override button carries `disabled=(not overrideReason.trim())`. -/
def confirmOverrideDisabled (overrideReason : String) : Bool :=
  jsTrim overrideReason == ""

/-! ## Frontend: the decision-log table (`GovernanceDashboard.jsx`) -/

/-- JavaScript `Array.prototype.slice(s, e)` for `0 ≤ s ≤ e` within
bounds: the elements from position `s` up to (excluding) `e`. -/
def jsSlice (l : List α) (s e : Nat) : List α :=
  (l.drop s).take (e - s)

/-- Translated from `GovernanceDashboard.jsx` line 312: the Decision Log
table's data is `decisionLogs.slice(0, 20)`. -/
def renderedDecisionLogs (decisionLogs : List DecisionLog) : List DecisionLog :=
  jsSlice decisionLogs 0 20

/-! ## C7-C10 -/

/-- C7 — An override request with an empty reason is rejected with
`ReasonRequired` (so nothing is appended — the ledger value is returned
only on success); on the client, `handleOverride` with an empty reason
reports an error instead of calling the override API — whatever the
modal state — and the Confirm Override button is disabled. -/
theorem empty_reason_rejected (L : Ledger) (ts appId : Nat) (nd : Bool)
    (actor : Nat) (cap : Bool) (modal : Option DecisionLog) (d : Bool) :
    request_override L ts appId nd "" actor cap = .error .ReasonRequired ∧
    handleOverride modal "" d = .showError ∧
    confirmOverrideDisabled "" = true := by
  refine ⟨by simp [request_override], ?_, by decide⟩
  cases modal <;> simp [handleOverride, jsTrim]

/-- C8 — With the capability gate answering no, `request_override`
rejects with `UnauthorizedOverride` (nothing appended); in the frontend
mapping, `override_decision_approve` belongs to exactly the admin role
and `override_decision_recommend` to exactly the auditor role, so an
actor with the user role, no authenticated user, or an unrecognized role
has no override permission and the Override action is not offered. -/
theorem unauthorized_override_rejected (L : Ledger) (ts appId : Nat)
    (nd : Bool) (reason : String) (actor uid : Nat)
    (role permission : String)
    (hreason : reason ≠ "") :
    request_override L ts appId nd reason actor false =
      .error .UnauthorizedOverride ∧
    ("override_decision_approve" ∈ rolePermissions role ↔ role = "admin") ∧
    ("override_decision_recommend" ∈ rolePermissions role ↔ role = "auditor") ∧
    hasPermission (some ⟨uid, "user"⟩) "override_decision_approve" = false ∧
    hasPermission (some ⟨uid, "user"⟩) "override_decision_recommend" = false ∧
    hasPermission none permission = false ∧
    overrideActionOffered (some ⟨uid, "user"⟩) = false ∧
    overrideActionOffered none = false ∧
    (role ≠ "admin" → role ≠ "auditor" →
      overrideActionOffered (some ⟨uid, role⟩) = false) := by
  refine ⟨by simp [request_override, hreason], ?_, ?_,
    by simp [hasPermission, rolePermissions],
    by simp [hasPermission, rolePermissions],
    rfl,
    by simp [overrideActionOffered, hasPermission, rolePermissions],
    rfl, ?_⟩
  · by_cases h1 : role = "user"
    · subst h1; decide
    · by_cases h2 : role = "auditor"
      · subst h2; decide
      · by_cases h3 : role = "admin"
        · subst h3; decide
        · simp [rolePermissions, h1, h2, h3]
  · by_cases h1 : role = "user"
    · subst h1; decide
    · by_cases h2 : role = "auditor"
      · subst h2; decide
      · by_cases h3 : role = "admin"
        · subst h3; decide
        · simp [rolePermissions, h1, h2, h3]
  · intro hna hnb
    by_cases h1 : role = "user"
    · subst h1
      simp [overrideActionOffered, hasPermission, rolePermissions]
    · simp [overrideActionOffered, hasPermission, rolePermissions,
        h1, hna, hnb]

/-- C8 witness: the rejection and the role facts at concrete inputs. -/
theorem unauthorized_override_rejected_witness :
    (("x" : String) ≠ "") ∧
    (request_override ⟨[]⟩ 0 1 true "x" 2 false =
      .error .UnauthorizedOverride ∧
    ("override_decision_approve" ∈ rolePermissions "user" ↔
      ("user" : String) = "admin") ∧
    ("override_decision_recommend" ∈ rolePermissions "user" ↔
      ("user" : String) = "auditor") ∧
    hasPermission (some ⟨3, "user"⟩) "override_decision_approve" = false ∧
    hasPermission (some ⟨3, "user"⟩) "override_decision_recommend" = false ∧
    hasPermission none "override_decision_approve" = false ∧
    overrideActionOffered (some ⟨3, "user"⟩) = false ∧
    overrideActionOffered none = false ∧
    (("user" : String) ≠ "admin" → ("user" : String) ≠ "auditor" →
      overrideActionOffered (some ⟨3, "user"⟩) = false)) :=
  ⟨by decide,
    unauthorized_override_rejected ⟨[]⟩ 0 1 true "x" 2 3 "user"
      "override_decision_approve" (by decide)⟩

/-- C9 — For every reason that is empty or consists only of whitespace,
the dashboard's override flow never calls the override API:
`handleOverride` reports an error and returns, for any modal state, and
the Confirm Override button is disabled. -/
theorem whitespace_reason_never_calls_api (modal : Option DecisionLog)
    (d : Bool) (reason : String)
    (hws : ∀ c ∈ reason.data, isJsWhitespace c = true) :
    handleOverride modal reason d = .showError ∧
    confirmOverrideDisabled reason = true := by
  have h1 : reason.data.dropWhile isJsWhitespace = [] :=
    List.dropWhile_eq_nil_iff.mpr hws
  have htrim : jsTrim reason = "" := by simp [jsTrim, h1]
  refine ⟨?_, by simp [confirmOverrideDisabled, htrim]⟩
  cases modal <;> simp [handleOverride, htrim]

/-- C9 witness: a reason of two spaces — non-empty, all whitespace — is
blocked on both paths. -/
theorem whitespace_reason_never_calls_api_witness :
    (∀ c ∈ ("  " : String).data, isJsWhitespace c = true) ∧
    (handleOverride (some ⟨1, 2, true, 8500, 0, false⟩) "  " true =
      .showError ∧
    confirmOverrideDisabled "  " = true) :=
  ⟨by decide,
    whitespace_reason_never_calls_api (some ⟨1, 2, true, 8500, 0, false⟩)
      true "  " (by decide)⟩

/-- C10 — The Decision Log table renders at most the first 20 entries of
the list received, in order: its data is exactly the 20-element prefix,
so entries beyond position 20 are never displayed. -/
theorem decision_log_renders_first_twenty (logs : List DecisionLog) :
    (renderedDecisionLogs logs).length ≤ 20 ∧
    renderedDecisionLogs logs = logs.take 20 := by
  constructor
  · simp [renderedDecisionLogs, jsSlice]
  · simp [renderedDecisionLogs, jsSlice]

end FairFinance
